import Mathlib

/-!
Verification of the order-matching and settlement core of the ledger engine
(`src/transactions/OfferExchange.h`).  The data model (`Price`,
`ExchangeResult`, `ExchangeResultV10`, the outcome enumerations) and the
classification function `ExchangeResult.type` are translated directly from
the header.  The exchange arithmetic, price-error bounding, offer adjustment
and the crossing loop are declared in the header but their bodies are not in
the sources; those are modelled from the specification, as indicated in the
doc comment of each such definition.
-/

namespace OfferExchange

/-- Exact rational price, numerator over denominator, as bounded signed
integers; translated from `Price` (XDR struct with fields `n`, `d`). -/
structure Price where
  n : Int
  d : Int
deriving Repr, DecidableEq

/-- Translated from `enum class ExchangeResultType`. -/
inductive ExchangeResultType where
  | NORMAL
  | REDUCED_TO_ZERO
  | BOGUS
deriving Repr, DecidableEq

/-- Translated from `struct ExchangeResult` (V2/V3 generations). -/
structure ExchangeResult where
  numWheatReceived : Int
  numSheepSend : Int
  reduced : Bool
deriving Repr, DecidableEq

/-- Translated from `ExchangeResult::type()`:
`if (numWheatReceived != 0 && numSheepSend != 0) return NORMAL; else return
reduced ? REDUCED_TO_ZERO : BOGUS;`. -/
def ExchangeResult.type (r : ExchangeResult) : ExchangeResultType :=
  if r.numWheatReceived ≠ 0 ∧ r.numSheepSend ≠ 0 then ExchangeResultType.NORMAL
  else if r.reduced then ExchangeResultType.REDUCED_TO_ZERO
  else ExchangeResultType.BOGUS

/-- Translated from `struct ExchangeResultV10`. -/
structure ExchangeResultV10 where
  numWheatReceived : Int
  numSheepSend : Int
  wheatStays : Bool
deriving Repr, DecidableEq

/-- Translated from `enum class OfferFilterResult`. -/
inductive OfferFilterResult where
  | eKeep
  | eStop
deriving Repr, DecidableEq

/-- Translated from `enum class ConvertResult`. -/
inductive ConvertResult where
  | eOK
  | ePartial
  | eFilterStop
deriving Repr, DecidableEq

/-- Translated from `enum class CrossOfferResult`. -/
inductive CrossOfferResult where
  | eOfferPartial
  | eOfferTaken
  | eOfferCantConvert
deriving Repr, DecidableEq

/-- Ceiling division on integers for a positive divisor, used for the
round-up direction of the widened integer division (`bigDivide` with
`ROUND_UP`). -/
def ceilDivInt (a b : Int) : Int :=
  -((-a) / b)

/-- Modelled from the spec: the fixed relative price-error tolerance of the
price-error bounding component (the body of `checkPriceErrorBound` is not in
the sources).  The spec gives a protocol constant "on the order of 1 part in
10^10 of relative error". -/
def errTol : Int := 10000000000

/-- Modelled from the spec: `checkPriceErrorBound(price, wheatReceive,
sheepSend, canFavorWheat)` (body not in the sources).  It verifies that the
realized ratio `sheepSend / wheatReceive` deviates from `price` by no more
than the fixed relative tolerance `errTol`, direction-sensitively.  Values
are compared after cross-multiplication (`wheatReceive * price.n` against
`sheepSend * price.d`).  In the direction the fairness rule favors (the
sheep side over-paying the resting wheat seller), one rounding quantum
(`max price.n price.d` in cross-multiplied units) is exempt, since the
round-up rule itself unavoidably produces up to that much; `canFavorWheat`
removes the bound in that direction entirely.  Against the wheat side the
relative tolerance applies with no slack.  A result with a zero amount has
no realized ratio and passes the bound. -/
def checkPriceErrorBound (price : Price) (wheatReceive sheepSend : Int)
    (canFavorWheat : Bool) : Bool :=
  if wheatReceive = 0 ∨ sheepSend = 0 then true
  else
    (canFavorWheat ||
        decide (errTol *
            (sheepSend * price.d - wheatReceive * price.n -
              max price.n price.d) ≤
          wheatReceive * price.n)) &&
      decide (errTol * (wheatReceive * price.n - sheepSend * price.d) ≤
        wheatReceive * price.n)

/-- Modelled from the spec: `applyPriceErrorThresholds(price, wheatReceive,
sheepSend, wheatStays, isPathPayment)` (body not in the sources).  If the raw
result already satisfies the bound it is returned unchanged; otherwise the
over-paying side is nudged down by the minimal integer amount needed to
re-enter tolerance (never below the fair minimum `ceil(wheatReceive * price)`
owed for the wheat delivered, per the rounding-fairness rule); if no
adjustment restores compliance, the result degrades to a zero/zero "no
trade" outcome.  `isPathPayment` relaxes the threshold by allowing the bound
to favor the wheat side. -/
def applyPriceErrorThresholds (price : Price) (wheatReceive sheepSend : Int)
    (wheatStays isPathPayment : Bool) : ExchangeResultV10 :=
  if wheatReceive = 0 ∨ sheepSend = 0 then
    { numWheatReceived := 0, numSheepSend := 0, wheatStays := wheatStays }
  else if checkPriceErrorBound price wheatReceive sheepSend isPathPayment then
    { numWheatReceived := wheatReceive, numSheepSend := sheepSend,
      wheatStays := wheatStays }
  else if wheatReceive * price.n < sheepSend * price.d then
    if checkPriceErrorBound price wheatReceive
        (max (ceilDivInt (wheatReceive * price.n) price.d)
          (wheatReceive * price.n * (errTol + 1) / (errTol * price.d)))
        isPathPayment then
      { numWheatReceived := wheatReceive,
        numSheepSend :=
          max (ceilDivInt (wheatReceive * price.n) price.d)
            (wheatReceive * price.n * (errTol + 1) / (errTol * price.d)),
        wheatStays := wheatStays }
    else
      { numWheatReceived := 0, numSheepSend := 0, wheatStays := wheatStays }
  else
    if checkPriceErrorBound price
        (sheepSend * price.d * errTol / ((errTol - 1) * price.n)) sheepSend
        isPathPayment then
      { numWheatReceived :=
          sheepSend * price.d * errTol / ((errTol - 1) * price.n),
        numSheepSend := sheepSend, wheatStays := wheatStays }
    else
      { numWheatReceived := 0, numSheepSend := 0, wheatStays := wheatStays }

/-- Modelled from the spec: `exchangeV2(wheatReceived, price,
maxWheatReceive, maxSheepSend)` (body not in the sources).  The original
algorithm: it biases rounding toward the wheat side (the sheep charge is
rounded down, which can in edge cases under-deliver sheep); if even the
rounded-down sheep charge exceeds `maxSheepSend`, the sheep charge is capped
and the wheat delivered is recomputed from it rounding down, with
`reduced = true`. -/
def exchangeV2 (wheatReceived : Int) (price : Price)
    (maxWheatReceive maxSheepSend : Int) : ExchangeResult :=
  if min wheatReceived maxWheatReceive * price.n / price.d > maxSheepSend then
    { numWheatReceived := maxSheepSend * price.d / price.n,
      numSheepSend := maxSheepSend, reduced := true }
  else
    { numWheatReceived := min wheatReceived maxWheatReceive,
      numSheepSend := min wheatReceived maxWheatReceive * price.n / price.d,
      reduced := decide (maxWheatReceive < wheatReceived) }

/-- Modelled from the spec: `exchangeV3(wheatReceived, price,
maxWheatReceive, maxSheepSend)` (body not in the sources).  It corrects V2's
rounding so that the amount of sheep charged is always enough (rounds up) to
pay for the wheat delivered at the exact price, while never exceeding
`maxSheepSend`; if correcting would exceed `maxSheepSend`, `wheatReceived`
is reduced (recomputed from the capped sheep charge, rounding down) and
`reduced = true` is set. -/
def exchangeV3 (wheatReceived : Int) (price : Price)
    (maxWheatReceive maxSheepSend : Int) : ExchangeResult :=
  if ceilDivInt (min wheatReceived maxWheatReceive * price.n) price.d >
      maxSheepSend then
    { numWheatReceived := maxSheepSend * price.d / price.n,
      numSheepSend := maxSheepSend, reduced := true }
  else
    { numWheatReceived := min wheatReceived maxWheatReceive,
      numSheepSend := ceilDivInt (min wheatReceived maxWheatReceive * price.n)
        price.d,
      reduced := decide (maxWheatReceive < wheatReceived) }

/-- Modelled from the spec: `exchangeV10WithoutPriceErrorThresholds(price,
maxWheatSend, maxWheatReceive, maxSheepSend, maxSheepReceive, isPathPayment)`
(body not in the sources).  It generalizes matching to symmetric buy/sell
caps: each side's capacity is the smaller of its two caps; the binding side
is found by comparing the two capacities' values at the exact price
(cross-multiplied).  If the sheep side binds, the incoming order's capacity
is the constraint: the resting offer keeps residue (`wheatStays = true`) and
the wheat delivered is derived rounding down.  Otherwise the wheat side
binds: the resting offer is fully consumed (`wheatStays = false`) and the
sheep charged is derived rounding up, per the rounding-fairness rule. -/
def exchangeV10WithoutPriceErrorThresholds (price : Price)
    (maxWheatSend maxWheatReceive maxSheepSend maxSheepReceive : Int)
    (_isPathPayment : Bool) : ExchangeResultV10 :=
  if min maxSheepSend maxSheepReceive * price.d <
      min maxWheatSend maxWheatReceive * price.n then
    { numWheatReceived := min maxSheepSend maxSheepReceive * price.d / price.n,
      numSheepSend := min maxSheepSend maxSheepReceive, wheatStays := true }
  else
    { numWheatReceived := min maxWheatSend maxWheatReceive,
      numSheepSend :=
        ceilDivInt (min maxWheatSend maxWheatReceive * price.n) price.d,
      wheatStays := false }

/-- Modelled from the spec: `exchangeV10` (body not in the sources) is the
raw V10 exchange arithmetic followed by price-error bounding. -/
def exchangeV10 (price : Price)
    (maxWheatSend maxWheatReceive maxSheepSend maxSheepReceive : Int)
    (isPathPayment : Bool) : ExchangeResultV10 :=
  applyPriceErrorThresholds price
    (exchangeV10WithoutPriceErrorThresholds price maxWheatSend maxWheatReceive
      maxSheepSend maxSheepReceive isPathPayment).numWheatReceived
    (exchangeV10WithoutPriceErrorThresholds price maxWheatSend maxWheatReceive
      maxSheepSend maxSheepReceive isPathPayment).numSheepSend
    (exchangeV10WithoutPriceErrorThresholds price maxWheatSend maxWheatReceive
      maxSheepSend maxSheepReceive isPathPayment).wheatStays
    isPathPayment

/-- Modelled from the spec: `adjustOffer(price, maxWheatSend,
maxSheepReceive)` (body not in the sources) returns the exact sell amount the
offer should be capped to so that it is always fully executable, i.e.
`min(maxWheatSend, floor(maxSheepReceive / price))`. -/
def adjustOffer (price : Price) (maxWheatSend maxSheepReceive : Int) : Int :=
  min maxWheatSend (maxSheepReceive * price.d / price.n)

/-- A resting offer as seen by the crossing loop: identity, the owner's live
capacities (the capacity calculators' outputs for the owner: how much wheat
the owner can still sell and how much sheep the owner can still receive),
the remaining sell amount, and the exact price. -/
structure OfferEntry where
  offerId : Nat
  ownerSellCap : Int
  ownerBuyCap : Int
  amount : Int
  price : Price
deriving Repr, DecidableEq

/-- Trade record appended once per crossed offer; modelled fields of
`ClaimOfferAtom`: the crossed offer's identity, the wheat sold by the resting
offer and the sheep bought by it. -/
structure ClaimOfferAtom where
  offerId : Nat
  amountSold : Int
  amountBought : Int
deriving Repr, DecidableEq

/-- The full outcome of a `convertWithOffers` run: the business-outcome
code, the cumulative sheep sent and wheat received (returned through the
`sheepSend` / `wheatReceived` out-parameters), the appended trade trail, and
the resulting ledger (the remaining resting offers). -/
structure ConvertOutcome where
  result : ConvertResult
  sheepSend : Int
  wheatReceived : Int
  offerTrail : List ClaimOfferAtom
  ledger : List OfferEntry
deriving Repr, DecidableEq

/-- Modelled from the spec: the crossing loop `convertWithOffers` (body not
in the sources), over a ledger modelled as the list of resting offers in
ascending price-then-identifier order.  Per iteration: if the remaining caps
are exhausted or no offers remain, terminate with `eOK` (full request
satisfied) or `ePartial`; apply the caller filter, `eStop` terminating
immediately with `eFilterStop` and the current offer untouched; otherwise run
the V10 exchange arithmetic with price-error bounding against the offer,
bounded by the owner's live capacities and the remaining request caps.  A
bogus result (a zero amount) skips the offer without mutating it
(`eOfferCantConvert`); if the resting offer keeps residue (`wheatStays`), the
residue is adjusted via `adjustOffer` and the loop stops, the incoming
order's remaining capacity being fully absorbed (`eOfferPartial`); otherwise
the offer is deleted and the loop continues (`eOfferTaken`).  Every
successful cross appends exactly one trade record. -/
def convertWithOffers : List OfferEntry → Int → Int → Bool →
    (OfferEntry → OfferFilterResult) → ConvertOutcome
  | [], maxSheepSent, maxWheatReceive, _, _ =>
    { result :=
        if maxSheepSent ≤ 0 ∨ maxWheatReceive ≤ 0 then ConvertResult.eOK
        else ConvertResult.ePartial,
      sheepSend := 0, wheatReceived := 0, offerTrail := [], ledger := [] }
  | o :: rest, maxSheepSent, maxWheatReceive, isPathPayment, filter =>
    if maxSheepSent ≤ 0 ∨ maxWheatReceive ≤ 0 then
      { result := ConvertResult.eOK, sheepSend := 0, wheatReceived := 0,
        offerTrail := [], ledger := o :: rest }
    else
      match filter o with
      | OfferFilterResult.eStop =>
        { result := ConvertResult.eFilterStop, sheepSend := 0,
          wheatReceived := 0, offerTrail := [], ledger := o :: rest }
      | OfferFilterResult.eKeep =>
        let r := exchangeV10 o.price (min o.amount o.ownerSellCap)
          maxWheatReceive maxSheepSent o.ownerBuyCap isPathPayment
        if r.numWheatReceived = 0 ∨ r.numSheepSend = 0 then
          let k := convertWithOffers rest maxSheepSent maxWheatReceive
            isPathPayment filter
          { result := k.result, sheepSend := k.sheepSend,
            wheatReceived := k.wheatReceived, offerTrail := k.offerTrail,
            ledger := o :: k.ledger }
        else if r.wheatStays then
          { result := ConvertResult.eOK, sheepSend := r.numSheepSend,
            wheatReceived := r.numWheatReceived,
            offerTrail :=
              [{ offerId := o.offerId, amountSold := r.numWheatReceived,
                 amountBought := r.numSheepSend }],
            ledger :=
              { o with
                amount := adjustOffer o.price (o.amount - r.numWheatReceived)
                  o.ownerBuyCap } :: rest }
        else
          let k := convertWithOffers rest (maxSheepSent - r.numSheepSend)
            (maxWheatReceive - r.numWheatReceived) isPathPayment filter
          { result := k.result, sheepSend := r.numSheepSend + k.sheepSend,
            wheatReceived := r.numWheatReceived + k.wheatReceived,
            offerTrail :=
              { offerId := o.offerId, amountSold := r.numWheatReceived,
                amountBought := r.numSheepSend } :: k.offerTrail,
            ledger := k.ledger }

/-- A filter that keeps every offer; the default caller policy. -/
def keepAll : OfferEntry → OfferFilterResult :=
  fun _ => OfferFilterResult.eKeep

/-- A filter that stops on every offer; a caller policy such as an
unconditional self-trade rejection. -/
def stopAll : OfferEntry → OfferFilterResult :=
  fun _ => OfferFilterResult.eStop

/-- Validity of an offer entry in the ledger: positive exact price and
non-negative amount and capacities. -/
def validOffer (o : OfferEntry) : Prop :=
  0 < o.price.n ∧ 0 < o.price.d ∧ 0 ≤ o.amount ∧ 0 ≤ o.ownerSellCap ∧
    0 ≤ o.ownerBuyCap

instance (o : OfferEntry) : Decidable (validOffer o) := by
  unfold validOffer
  infer_instance

end OfferExchange

namespace OfferExchange

/-- Claim C1: `type()` returns `NORMAL` if both `numWheatReceived` and
`numSheepSend` are nonzero; otherwise it returns `REDUCED_TO_ZERO` if the
`reduced` flag is true, and `BOGUS` if the `reduced` flag is false. -/
theorem type_normal_reduced_bogus_classification (r : ExchangeResult) :
    r.type =
      if r.numWheatReceived ≠ 0 ∧ r.numSheepSend ≠ 0 then
        ExchangeResultType.NORMAL
      else if r.reduced then ExchangeResultType.REDUCED_TO_ZERO
      else ExchangeResultType.BOGUS :=
  rfl

/-- Claim C2 counterexample: an asymmetric result (nonzero wheat, zero sheep)
with `reduced = true` is classified `REDUCED_TO_ZERO`, not `BOGUS`, so the
classification is not independent of the `reduced` flag. -/
theorem type_asymmetric_reduced_not_bogus :
    (ExchangeResult.mk 1 0 true).type ≠ ExchangeResultType.BOGUS := by
  decide

/-- Claim C2 (amended): for every `ExchangeResult` in which exactly one of
`numWheatReceived` and `numSheepSend` is zero and the other is nonzero,
`type()` returns `BOGUS` when `reduced` is false and `REDUCED_TO_ZERO` when
`reduced` is true. -/
theorem type_asymmetric_classification (r : ExchangeResult)
    (h : (r.numWheatReceived = 0 ∧ r.numSheepSend ≠ 0) ∨
      (r.numWheatReceived ≠ 0 ∧ r.numSheepSend = 0)) :
    r.type =
      if r.reduced then ExchangeResultType.REDUCED_TO_ZERO
      else ExchangeResultType.BOGUS := by
  rcases h with ⟨h1, h2⟩ | ⟨h1, h2⟩ <;>
    simp [ExchangeResult.type, h1, h2]

/-- Claim C2 (amended) witness at the concrete asymmetric input `(0, 1)` with
`reduced = false`. -/
theorem type_asymmetric_classification_witness :
    ((ExchangeResult.mk 0 1 false).numWheatReceived = 0 ∧
        (ExchangeResult.mk 0 1 false).numSheepSend ≠ 0) ∧
      (ExchangeResult.mk 0 1 false).type =
        if (ExchangeResult.mk 0 1 false).reduced then
          ExchangeResultType.REDUCED_TO_ZERO
        else ExchangeResultType.BOGUS :=
  ⟨by decide, type_asymmetric_classification (ExchangeResult.mk 0 1 false)
    (Or.inl (by decide))⟩

/-- Claim C9: a symmetric zero/zero result with `reduced = false` is
classified `BOGUS`; a zero/zero result is `REDUCED_TO_ZERO` exactly when the
`reduced` flag is true. -/
theorem type_zero_zero_classification (r : ExchangeResult)
    (h1 : r.numWheatReceived = 0) (h2 : r.numSheepSend = 0) :
    (r.reduced = false → r.type = ExchangeResultType.BOGUS) ∧
      (r.type = ExchangeResultType.REDUCED_TO_ZERO ↔ r.reduced = true) := by
  cases hr : r.reduced <;> simp [ExchangeResult.type, h1, h2, hr]

/-- Claim C9 witness at the concrete input `(0, 0, reduced = false)`. -/
theorem type_zero_zero_classification_witness :
    (ExchangeResult.mk 0 0 false).numWheatReceived = 0 ∧
      (ExchangeResult.mk 0 0 false).numSheepSend = 0 ∧
      ((ExchangeResult.mk 0 0 false).reduced = false →
        (ExchangeResult.mk 0 0 false).type = ExchangeResultType.BOGUS) ∧
      ((ExchangeResult.mk 0 0 false).type = ExchangeResultType.REDUCED_TO_ZERO ↔
        (ExchangeResult.mk 0 0 false).reduced = true) :=
  ⟨by decide, by decide,
    type_zero_zero_classification (ExchangeResult.mk 0 0 false) (by decide)
      (by decide)⟩

/-- Claim C10: whenever both `numWheatReceived` and `numSheepSend` are
nonzero, `type()` returns `NORMAL` regardless of the `reduced` flag. -/
theorem type_nonzero_nonzero_normal (r : ExchangeResult)
    (h1 : r.numWheatReceived ≠ 0) (h2 : r.numSheepSend ≠ 0) :
    r.type = ExchangeResultType.NORMAL := by
  simp [ExchangeResult.type, h1, h2]

/-- Floor division bounded above: for a positive divisor, `a / b ≤ c` iff
`a < (c + 1) * b`. -/
theorem ediv_le_iff' {a b c : Int} (hb : 0 < b) : a / b ≤ c ↔ a < (c + 1) * b := by
  rw [← Int.lt_add_one_iff, Int.ediv_lt_iff_lt_mul hb]

/-- Floor division under-approximates: `(a / b) * b ≤ a` for positive `b`. -/
theorem ediv_mul_le' {a b : Int} (hb : 0 < b) : a / b * b ≤ a :=
  (Int.le_ediv_iff_mul_le hb).mp le_rfl

/-- Ceiling division bounded above: for a positive divisor,
`ceilDivInt a b ≤ c` iff `a ≤ c * b`. -/
theorem ceilDivInt_le_iff {a b c : Int} (hb : 0 < b) :
    ceilDivInt a b ≤ c ↔ a ≤ c * b := by
  unfold ceilDivInt
  rw [neg_le, Int.le_ediv_iff_mul_le hb, neg_mul, neg_le_neg_iff]

/-- Ceiling division bounded below: for a positive divisor,
`c ≤ ceilDivInt a b` iff `(c - 1) * b < a`. -/
theorem le_ceilDivInt_iff {a b c : Int} (hb : 0 < b) :
    c ≤ ceilDivInt a b ↔ (c - 1) * b < a := by
  unfold ceilDivInt
  rw [le_neg, ← Int.lt_add_one_iff, Int.ediv_lt_iff_lt_mul hb]
  constructor <;> intro h <;> nlinarith [h]

/-- Ceiling division over-approximates: `a ≤ ceilDivInt a b * b` for positive
`b`. -/
theorem le_mul_ceilDivInt {a b : Int} (hb : 0 < b) : a ≤ ceilDivInt a b * b :=
  (ceilDivInt_le_iff hb).mp le_rfl

/-- Ceiling division of a non-negative numerator by a positive divisor is
non-negative. -/
theorem ceilDivInt_nonneg {a b : Int} (hb : 0 < b) (ha : 0 ≤ a) :
    0 ≤ ceilDivInt a b :=
  (le_ceilDivInt_iff hb).mpr (by nlinarith)

/-- Floor of an integer quotient over ℚ agrees with euclidean division for a
positive divisor. -/
theorem floor_intCast_div_intCast (a b : Int) (hb : 0 < b) :
    ⌊((a : ℚ) / (b : ℚ))⌋ = a / b := by
  lift b to ℕ using hb.le with b'
  push_cast
  exact Rat.floor_intCast_div_natCast a b'

/-- Conversion between the cross-multiplied fairness inequality and the
rational-ceiling form `ceil(price * wheat) ≤ sheep`. -/
theorem ceil_price_le {n d w s : Int} (hn : 0 < n) (hd : 0 < d)
    (h : w * n ≤ s * d) : ⌈((n : ℚ) / (d : ℚ)) * (w : ℚ)⌉ ≤ s := by
  rw [Int.ceil_le, div_mul_eq_mul_div, div_le_iff₀ (by positivity)]
  have : ((n * w : Int) : ℚ) ≤ ((s * d : Int) : ℚ) := by
    exact_mod_cast (by nlinarith : (n * w : Int) ≤ s * d)
  push_cast at this ⊢
  linarith

/-- Propositional characterization of `checkPriceErrorBound`. -/
theorem checkPriceErrorBound_true_iff (price : Price) (w s : Int)
    (cfw : Bool) :
    checkPriceErrorBound price w s cfw = true ↔
      (w = 0 ∨ s = 0) ∨
        ((cfw = true ∨
            errTol * (s * price.d - w * price.n - max price.n price.d) ≤
              w * price.n) ∧
          errTol * (w * price.n - s * price.d) ≤ w * price.n) := by
  unfold checkPriceErrorBound
  split_ifs with h
  · simp [h]
  · simp [h, Bool.and_eq_true, Bool.or_eq_true, decide_eq_true_eq]

/-- Claim C3: for every input (price, wheatReceive, sheepSend, wheatStays,
isPathPayment), the `ExchangeResultV10` returned by
`applyPriceErrorThresholds` satisfies `checkPriceErrorBound` on its
`numWheatReceived` and `numSheepSend` amounts. -/
theorem applyPriceErrorThresholds_bound_holds (price : Price)
    (wheatReceive sheepSend : Int) (wheatStays isPathPayment : Bool) :
    checkPriceErrorBound price
      (applyPriceErrorThresholds price wheatReceive sheepSend wheatStays
        isPathPayment).numWheatReceived
      (applyPriceErrorThresholds price wheatReceive sheepSend wheatStays
        isPathPayment).numSheepSend isPathPayment = true := by
  unfold applyPriceErrorThresholds
  split_ifs <;> simp_all [checkPriceErrorBound]

/-- `applyPriceErrorThresholds` only ever keeps or shrinks the two amounts:
for a positive exact price and non-negative amounts, the result's amounts
are non-negative and bounded by the input amounts. -/
theorem applyPriceErrorThresholds_le (price : Price) (w s : Int)
    (ws ipp : Bool) (hn : 0 < price.n) (hd : 0 < price.d) (hw : 0 ≤ w)
    (hs : 0 ≤ s) :
    0 ≤ (applyPriceErrorThresholds price w s ws ipp).numWheatReceived ∧
      (applyPriceErrorThresholds price w s ws ipp).numWheatReceived ≤ w ∧
      0 ≤ (applyPriceErrorThresholds price w s ws ipp).numSheepSend ∧
      (applyPriceErrorThresholds price w s ws ipp).numSheepSend ≤ s := by
  have hE : (0 : Int) < errTol := by norm_num [errTol]
  have hE1 : (0 : Int) < errTol - 1 := by norm_num [errTol]
  have hM : (0 : Int) < max price.n price.d := lt_max_of_lt_left hn
  have hwn : 0 ≤ w * price.n := mul_nonneg hw hn.le
  unfold applyPriceErrorThresholds
  split_ifs with h1 h2 h3 h4 h5 <;> dsimp only
  · exact ⟨le_rfl, hw, le_rfl, hs⟩
  · exact ⟨hw, le_rfl, hs, le_rfl⟩
  · refine ⟨hw, le_rfl, ?_, ?_⟩
    · exact le_trans (ceilDivInt_nonneg hd hwn) (le_max_left _ _)
    · have hq : errTol * (w * price.n - s * price.d) ≤ w * price.n := by
        nlinarith [h3]
      have hnp : ¬(errTol *
          (s * price.d - w * price.n - max price.n price.d) ≤
            w * price.n) := by
        intro hp
        exact h2 ((checkPriceErrorBound_true_iff price w s ipp).mpr
          (Or.inr ⟨Or.inr hp, hq⟩))
      have hp' := not_le.mp hnp
      refine max_le ((ceilDivInt_le_iff hd).mpr h3.le) ?_
      refine (ediv_le_iff' (mul_pos hE hd)).mpr ?_
      nlinarith [hp', mul_pos hE hd, mul_nonneg hE.le hM.le]
  · exact ⟨le_rfl, hw, le_rfl, hs⟩
  · have hsd : s * price.d ≤ w * price.n := not_lt.mp h3
    have hp0 : errTol *
        (s * price.d - w * price.n - max price.n price.d) ≤ w * price.n := by
      nlinarith [hsd, hM, hE]
    have hnq : ¬(errTol * (w * price.n - s * price.d) ≤ w * price.n) := by
      intro hq
      exact h2 ((checkPriceErrorBound_true_iff price w s ipp).mpr
        (Or.inr ⟨Or.inr hp0, hq⟩))
    have hq' := not_le.mp hnq
    have hpos : (0 : Int) < (errTol - 1) * price.n := mul_pos hE1 hn
    refine ⟨?_, ?_, hs, le_rfl⟩
    · exact Int.ediv_nonneg (mul_nonneg (mul_nonneg hs hd.le) hE.le) hpos.le
    · refine (ediv_le_iff' hpos).mpr ?_
      nlinarith [hq', hpos]
  · exact ⟨le_rfl, hw, le_rfl, hs⟩

/-- `applyPriceErrorThresholds` preserves the rounding-fairness inequality:
if the input amounts over-pay the wheat side (`w * n ≤ s * d`), so does the
result. -/
theorem applyPriceErrorThresholds_fair (price : Price) (w s : Int)
    (ws ipp : Bool) (hn : 0 < price.n) (hd : 0 < price.d) (hw : 0 ≤ w)
    (hfair : w * price.n ≤ s * price.d) :
    (applyPriceErrorThresholds price w s ws ipp).numWheatReceived *
        price.n ≤
      (applyPriceErrorThresholds price w s ws ipp).numSheepSend *
        price.d := by
  have hE : (0 : Int) < errTol := by norm_num [errTol]
  have hM : (0 : Int) < max price.n price.d := lt_max_of_lt_left hn
  have hwn : 0 ≤ w * price.n := mul_nonneg hw hn.le
  unfold applyPriceErrorThresholds
  split_ifs with h1 h2 h3 h4 h5 <;> dsimp only
  · simp
  · exact hfair
  · calc w * price.n ≤ ceilDivInt (w * price.n) price.d * price.d :=
        le_mul_ceilDivInt hd
      _ ≤ max (ceilDivInt (w * price.n) price.d)
            (w * price.n * (errTol + 1) / (errTol * price.d)) * price.d :=
        mul_le_mul_of_nonneg_right (le_max_left _ _) hd.le
  · simp
  · exfalso
    have heq : w * price.n = s * price.d := le_antisymm hfair (not_lt.mp h3)
    apply h2
    rw [checkPriceErrorBound_true_iff]
    exact Or.inr ⟨Or.inr (by nlinarith [hM, hE]), by nlinarith⟩
  · exfalso
    have heq : w * price.n = s * price.d := le_antisymm hfair (not_lt.mp h3)
    apply h2
    rw [checkPriceErrorBound_true_iff]
    exact Or.inr ⟨Or.inr (by nlinarith [hM, hE]), by nlinarith⟩

/-- Bounds of the raw V10 exchange arithmetic: for a positive exact price
and non-negative caps, both amounts are non-negative, within all four caps,
and over-pay the wheat side (the rounding-fairness inequality). -/
theorem exchangeV10_raw_bounds (price : Price) (mws mwr mss msr : Int)
    (ipp : Bool) (hn : 0 < price.n) (hd : 0 < price.d) (hmws : 0 ≤ mws)
    (hmwr : 0 ≤ mwr) (hmss : 0 ≤ mss) (hmsr : 0 ≤ msr) :
    0 ≤ (exchangeV10WithoutPriceErrorThresholds price mws mwr mss msr
        ipp).numWheatReceived ∧
      (exchangeV10WithoutPriceErrorThresholds price mws mwr mss msr
        ipp).numWheatReceived ≤ mws ∧
      (exchangeV10WithoutPriceErrorThresholds price mws mwr mss msr
        ipp).numWheatReceived ≤ mwr ∧
      0 ≤ (exchangeV10WithoutPriceErrorThresholds price mws mwr mss msr
        ipp).numSheepSend ∧
      (exchangeV10WithoutPriceErrorThresholds price mws mwr mss msr
        ipp).numSheepSend ≤ mss ∧
      (exchangeV10WithoutPriceErrorThresholds price mws mwr mss msr
        ipp).numSheepSend ≤ msr ∧
      (exchangeV10WithoutPriceErrorThresholds price mws mwr mss msr
          ipp).numWheatReceived * price.n ≤
        (exchangeV10WithoutPriceErrorThresholds price mws mwr mss msr
          ipp).numSheepSend * price.d := by
  unfold exchangeV10WithoutPriceErrorThresholds
  split_ifs with hg <;> dsimp only
  · have hw1 : min mws mwr ≤ mws := min_le_left _ _
    have hw2 : min mws mwr ≤ mwr := min_le_right _ _
    refine ⟨Int.ediv_nonneg (mul_nonneg (le_min hmss hmsr) hd.le) hn.le,
      (ediv_le_iff' hn).mpr ?_, (ediv_le_iff' hn).mpr ?_,
      le_min hmss hmsr, min_le_left _ _, min_le_right _ _,
      ediv_mul_le' hn⟩
    · nlinarith [mul_le_mul_of_nonneg_right hw1 hn.le]
    · nlinarith [mul_le_mul_of_nonneg_right hw2 hn.le]
  · have hge : min mws mwr * price.n ≤ min mss msr * price.d := not_lt.mp hg
    have hs1 : min mss msr ≤ mss := min_le_left _ _
    have hs2 : min mss msr ≤ msr := min_le_right _ _
    refine ⟨le_min hmws hmwr, min_le_left _ _, min_le_right _ _,
      ceilDivInt_nonneg hd (mul_nonneg (le_min hmws hmwr) hn.le),
      (ceilDivInt_le_iff hd).mpr ?_, (ceilDivInt_le_iff hd).mpr ?_,
      le_mul_ceilDivInt hd⟩
    · nlinarith [mul_le_mul_of_nonneg_right hs1 hd.le]
    · nlinarith [mul_le_mul_of_nonneg_right hs2 hd.le]

/-- Bounds of `exchangeV10` (raw arithmetic followed by price-error
bounding): both amounts are non-negative, within all four caps, and over-pay
the wheat side. -/
theorem exchangeV10_bounds (price : Price) (mws mwr mss msr : Int)
    (ipp : Bool) (hn : 0 < price.n) (hd : 0 < price.d) (hmws : 0 ≤ mws)
    (hmwr : 0 ≤ mwr) (hmss : 0 ≤ mss) (hmsr : 0 ≤ msr) :
    0 ≤ (exchangeV10 price mws mwr mss msr ipp).numWheatReceived ∧
      (exchangeV10 price mws mwr mss msr ipp).numWheatReceived ≤ mws ∧
      (exchangeV10 price mws mwr mss msr ipp).numWheatReceived ≤ mwr ∧
      0 ≤ (exchangeV10 price mws mwr mss msr ipp).numSheepSend ∧
      (exchangeV10 price mws mwr mss msr ipp).numSheepSend ≤ mss ∧
      (exchangeV10 price mws mwr mss msr ipp).numSheepSend ≤ msr ∧
      (exchangeV10 price mws mwr mss msr ipp).numWheatReceived * price.n ≤
        (exchangeV10 price mws mwr mss msr ipp).numSheepSend * price.d := by
  obtain ⟨hr1, hr2, hr3, hr4, hr5, hr6, hr7⟩ :=
    exchangeV10_raw_bounds price mws mwr mss msr ipp hn hd hmws hmwr hmss
      hmsr
  obtain ⟨hm1, hm2, hm3, hm4⟩ :=
    applyPriceErrorThresholds_le price
      (exchangeV10WithoutPriceErrorThresholds price mws mwr mss msr
        ipp).numWheatReceived
      (exchangeV10WithoutPriceErrorThresholds price mws mwr mss msr
        ipp).numSheepSend
      (exchangeV10WithoutPriceErrorThresholds price mws mwr mss msr
        ipp).wheatStays ipp hn hd hr1 hr4
  have hfair :=
    applyPriceErrorThresholds_fair price
      (exchangeV10WithoutPriceErrorThresholds price mws mwr mss msr
        ipp).numWheatReceived
      (exchangeV10WithoutPriceErrorThresholds price mws mwr mss msr
        ipp).numSheepSend
      (exchangeV10WithoutPriceErrorThresholds price mws mwr mss msr
        ipp).wheatStays ipp hn hd hr1 hr7
  unfold exchangeV10
  exact ⟨hm1, le_trans hm2 hr2, le_trans hm2 hr3, hm3, le_trans hm4 hr5,
    le_trans hm4 hr6, hfair⟩

/-- Cap bounds of `exchangeV2`: the returned amounts never exceed
`maxWheatReceive` and `maxSheepSend`. -/
theorem exchangeV2_caps (wr : Int) (price : Price) (mwr mss : Int)
    (hn : 0 < price.n) (hd : 0 < price.d) (hmss : 0 ≤ mss) :
    (exchangeV2 wr price mwr mss).numWheatReceived ≤ mwr ∧
      (exchangeV2 wr price mwr mss).numSheepSend ≤ mss := by
  unfold exchangeV2
  split_ifs with hg <;> dsimp only
  · have h2 : mss + 1 ≤ min wr mwr * price.n / price.d :=
      Int.lt_iff_add_one_le.mp hg
    have h3 : (mss + 1) * price.d ≤ min wr mwr * price.n :=
      (Int.le_ediv_iff_mul_le hd).mp h2
    have h4 : min wr mwr ≤ mwr := min_le_right _ _
    refine ⟨(ediv_le_iff' hn).mpr ?_, le_rfl⟩
    nlinarith [mul_le_mul_of_nonneg_right h4 hn.le]
  · exact ⟨min_le_right _ _, not_lt.mp hg⟩

/-- Bounds of `exchangeV3`: the returned amounts never exceed the caps, are
non-negative, and the sheep charge always covers the wheat delivered at the
exact price (the rounding-fairness inequality). -/
theorem exchangeV3_bounds (wr : Int) (price : Price) (mwr mss : Int)
    (hn : 0 < price.n) (hd : 0 < price.d) (hwr : 0 ≤ wr) (hmwr : 0 ≤ mwr)
    (hmss : 0 ≤ mss) :
    (exchangeV3 wr price mwr mss).numWheatReceived ≤ mwr ∧
      (exchangeV3 wr price mwr mss).numSheepSend ≤ mss ∧
      0 ≤ (exchangeV3 wr price mwr mss).numWheatReceived ∧
      0 ≤ (exchangeV3 wr price mwr mss).numSheepSend ∧
      (exchangeV3 wr price mwr mss).numWheatReceived * price.n ≤
        (exchangeV3 wr price mwr mss).numSheepSend * price.d := by
  unfold exchangeV3
  split_ifs with hg <;> dsimp only
  · have h2 : mss * price.d < min wr mwr * price.n := by
      by_contra h
      exact absurd ((ceilDivInt_le_iff hd).mpr (not_lt.mp h))
        (not_le.mpr hg)
    have h4 : min wr mwr ≤ mwr := min_le_right _ _
    refine ⟨(ediv_le_iff' hn).mpr ?_, le_rfl,
      Int.ediv_nonneg (mul_nonneg hmss hd.le) hn.le, hmss,
      ediv_mul_le' hn⟩
    nlinarith [mul_le_mul_of_nonneg_right h4 hn.le]
  · exact ⟨min_le_right _ _, not_lt.mp hg, le_min hwr hmwr,
      ceilDivInt_nonneg hd (mul_nonneg (le_min hwr hmwr) hn.le),
      le_mul_ceilDivInt hd⟩

/-- Loop invariant of the crossing loop: over a valid ledger, the cumulative
sheep sent and wheat received never exceed the request caps. -/
theorem convertWithOffers_caps (ipp : Bool)
    (filter : OfferEntry → OfferFilterResult) :
    ∀ (offers : List OfferEntry) (mss mwr : Int), 0 ≤ mss → 0 ≤ mwr →
      (∀ o ∈ offers, validOffer o) →
      (convertWithOffers offers mss mwr ipp filter).sheepSend ≤ mss ∧
        (convertWithOffers offers mss mwr ipp filter).wheatReceived ≤ mwr := by
  intro offers
  induction offers with
  | nil =>
    intro mss mwr hmss hmwr _
    simpa [convertWithOffers] using ⟨hmss, hmwr⟩
  | cons o rest ih =>
    intro mss mwr hmss hmwr hval
    obtain ⟨hon, hod, hoa, hosc, hobc⟩ := hval o (List.mem_cons_self o rest)
    have hvrest : ∀ o' ∈ rest, validOffer o' := fun o' ho' =>
      hval o' (List.mem_cons_of_mem o ho')
    obtain ⟨he1, he2, he3, he4, he5, he6, he7⟩ :=
      exchangeV10_bounds o.price (min o.amount o.ownerSellCap) mwr mss
        o.ownerBuyCap ipp hon hod (le_min hoa hosc) hmwr hmss hobc
    simp only [convertWithOffers]
    by_cases hcap : mss ≤ 0 ∨ mwr ≤ 0
    · rw [if_pos hcap]
      exact ⟨hmss, hmwr⟩
    · rw [if_neg hcap]
      cases hf : filter o with
      | eStop => exact ⟨hmss, hmwr⟩
      | eKeep =>
        by_cases hbog :
            (exchangeV10 o.price (min o.amount o.ownerSellCap) mwr mss
                  o.ownerBuyCap ipp).numWheatReceived = 0 ∨
              (exchangeV10 o.price (min o.amount o.ownerSellCap) mwr mss
                  o.ownerBuyCap ipp).numSheepSend = 0
        · rw [if_pos hbog]
          exact ih mss mwr hmss hmwr hvrest
        · rw [if_neg hbog]
          by_cases hstay :
              (exchangeV10 o.price (min o.amount o.ownerSellCap) mwr mss
                o.ownerBuyCap ipp).wheatStays = true
          · rw [if_pos hstay]
            exact ⟨he5, he3⟩
          · rw [if_neg hstay]
            obtain ⟨ihs, ihw⟩ := ih
              (mss -
                (exchangeV10 o.price (min o.amount o.ownerSellCap) mwr mss
                  o.ownerBuyCap ipp).numSheepSend)
              (mwr -
                (exchangeV10 o.price (min o.amount o.ownerSellCap) mwr mss
                  o.ownerBuyCap ipp).numWheatReceived)
              (by omega) (by omega) hvrest
            constructor <;> dsimp only <;> omega

/-- Claim C4: every exchange computation (`exchangeV2`, `exchangeV3`,
`exchangeV10`) returns `numWheatReceived` and `numSheepSend` that never
exceed any of the supplied caps, and across a full `convertWithOffers` run
the cumulative sheep sent never exceeds `maxSheepSent` and the cumulative
wheat received never exceeds `maxWheatReceive`. -/
theorem exchange_and_convert_within_caps (price : Price)
    (wr mws mwr mss msr : Int) (ipp : Bool) (offers : List OfferEntry)
    (filter : OfferEntry → OfferFilterResult) (hn : 0 < price.n)
    (hd : 0 < price.d) (hwr : 0 ≤ wr) (hmws : 0 ≤ mws) (hmwr : 0 ≤ mwr)
    (hmss : 0 ≤ mss) (hmsr : 0 ≤ msr)
    (hval : ∀ o ∈ offers, validOffer o) :
    ((exchangeV2 wr price mwr mss).numWheatReceived ≤ mwr ∧
        (exchangeV2 wr price mwr mss).numSheepSend ≤ mss) ∧
      ((exchangeV3 wr price mwr mss).numWheatReceived ≤ mwr ∧
        (exchangeV3 wr price mwr mss).numSheepSend ≤ mss) ∧
      ((exchangeV10 price mws mwr mss msr ipp).numWheatReceived ≤ mws ∧
        (exchangeV10 price mws mwr mss msr ipp).numWheatReceived ≤ mwr ∧
        (exchangeV10 price mws mwr mss msr ipp).numSheepSend ≤ mss ∧
        (exchangeV10 price mws mwr mss msr ipp).numSheepSend ≤ msr) ∧
      ((convertWithOffers offers mss mwr ipp filter).sheepSend ≤ mss ∧
        (convertWithOffers offers mss mwr ipp filter).wheatReceived ≤
          mwr) := by
  obtain ⟨h2w, h2s⟩ := exchangeV2_caps wr price mwr mss hn hd hmss
  obtain ⟨h3w, h3s, -, -, -⟩ := exchangeV3_bounds wr price mwr mss hn hd hwr
    hmwr hmss
  obtain ⟨-, h10a, h10b, -, h10c, h10d, -⟩ := exchangeV10_bounds price mws
    mwr mss msr ipp hn hd hmws hmwr hmss hmsr
  obtain ⟨hcs, hcw⟩ := convertWithOffers_caps ipp filter offers mss mwr hmss
    hmwr hval
  exact ⟨⟨h2w, h2s⟩, ⟨h3w, h3s⟩, ⟨h10a, h10b, h10c, h10d⟩, hcs, hcw⟩

/-- Claim C4 witness at a concrete price, caps and one-offer ledger. -/
theorem exchange_and_convert_within_caps_witness :
    (0 : Int) < (Price.mk 1 1).n ∧ (0 : Int) < (Price.mk 1 1).d ∧
      (0 : Int) ≤ 5 ∧ (0 : Int) ≤ 3 ∧ (0 : Int) ≤ 4 ∧ (0 : Int) ≤ 2 ∧
      (0 : Int) ≤ 7 ∧
      (∀ o ∈ [OfferEntry.mk 1 10 10 5 (Price.mk 1 1)], validOffer o) ∧
      (((exchangeV2 5 (Price.mk 1 1) 4 2).numWheatReceived ≤ 4 ∧
          (exchangeV2 5 (Price.mk 1 1) 4 2).numSheepSend ≤ 2) ∧
        ((exchangeV3 5 (Price.mk 1 1) 4 2).numWheatReceived ≤ 4 ∧
          (exchangeV3 5 (Price.mk 1 1) 4 2).numSheepSend ≤ 2) ∧
        ((exchangeV10 (Price.mk 1 1) 3 4 2 7 false).numWheatReceived ≤ 3 ∧
          (exchangeV10 (Price.mk 1 1) 3 4 2 7 false).numWheatReceived ≤ 4 ∧
          (exchangeV10 (Price.mk 1 1) 3 4 2 7 false).numSheepSend ≤ 2 ∧
          (exchangeV10 (Price.mk 1 1) 3 4 2 7 false).numSheepSend ≤ 7) ∧
        ((convertWithOffers [OfferEntry.mk 1 10 10 5 (Price.mk 1 1)] 2 4
              false keepAll).sheepSend ≤ 2 ∧
          (convertWithOffers [OfferEntry.mk 1 10 10 5 (Price.mk 1 1)] 2 4
              false keepAll).wheatReceived ≤ 4)) :=
  ⟨by decide, by decide, by decide, by decide, by decide, by decide,
    by decide, by decide,
    exchange_and_convert_within_caps (Price.mk 1 1) 5 3 4 2 7 false
      [OfferEntry.mk 1 10 10 5 (Price.mk 1 1)] keepAll (by decide)
      (by decide) (by decide) (by decide) (by decide) (by decide)
      (by decide) (by decide)⟩

/-- Claim C5: for every match computed by `exchangeV3` or `exchangeV10` at a
positive exact rational price, the sheep amount charged is at least
`ceil(price * wheatReceived)`: the incoming order never pays an effective
price strictly better than the resting offer's exact price, and the wheat
seller never receives less sheep than the exact price entitles for the
wheat delivered. -/
theorem exchangeV3_exchangeV10_rounding_fairness (price : Price)
    (wr mws mwr mss msr : Int) (ipp : Bool) (hn : 0 < price.n)
    (hd : 0 < price.d) (hwr : 0 ≤ wr) (hmws : 0 ≤ mws) (hmwr : 0 ≤ mwr)
    (hmss : 0 ≤ mss) (hmsr : 0 ≤ msr) :
    ⌈((price.n : ℚ) / (price.d : ℚ)) *
        ((exchangeV3 wr price mwr mss).numWheatReceived : ℚ)⌉ ≤
      (exchangeV3 wr price mwr mss).numSheepSend ∧
    ⌈((price.n : ℚ) / (price.d : ℚ)) *
        ((exchangeV10 price mws mwr mss msr ipp).numWheatReceived : ℚ)⌉ ≤
      (exchangeV10 price mws mwr mss msr ipp).numSheepSend := by
  obtain ⟨-, -, -, -, hfair3⟩ := exchangeV3_bounds wr price mwr mss hn hd
    hwr hmwr hmss
  obtain ⟨-, -, -, -, -, -, hfair10⟩ := exchangeV10_bounds price mws mwr mss
    msr ipp hn hd hmws hmwr hmss hmsr
  exact ⟨ceil_price_le hn hd hfair3, ceil_price_le hn hd hfair10⟩

/-- Claim C5 witness at a concrete price and caps. -/
theorem exchangeV3_exchangeV10_rounding_fairness_witness :
    (0 : Int) < (Price.mk 3 2).n ∧ (0 : Int) < (Price.mk 3 2).d ∧
      (0 : Int) ≤ 5 ∧ (0 : Int) ≤ 4 ∧ (0 : Int) ≤ 6 ∧ (0 : Int) ≤ 9 ∧
      (0 : Int) ≤ 9 ∧
      (⌈(((Price.mk 3 2).n : ℚ) / ((Price.mk 3 2).d : ℚ)) *
            ((exchangeV3 5 (Price.mk 3 2) 6 9).numWheatReceived : ℚ)⌉ ≤
          (exchangeV3 5 (Price.mk 3 2) 6 9).numSheepSend ∧
        ⌈(((Price.mk 3 2).n : ℚ) / ((Price.mk 3 2).d : ℚ)) *
            ((exchangeV10 (Price.mk 3 2) 4 6 9 9
              false).numWheatReceived : ℚ)⌉ ≤
          (exchangeV10 (Price.mk 3 2) 4 6 9 9 false).numSheepSend) :=
  ⟨by decide, by decide, by decide, by decide, by decide, by decide,
    by decide,
    exchangeV3_exchangeV10_rounding_fairness (Price.mk 3 2) 5 4 6 9 9 false
      (by decide) (by decide) (by decide) (by decide) (by decide)
      (by decide) (by decide)⟩

/-- Claim C6: for every positive exact rational price and every pair of
caps, `adjustOffer(price, maxWheatSend, maxSheepReceive)` returns
`min(maxWheatSend, floor(maxSheepReceive / price))`. -/
theorem adjustOffer_eq_min_floor (price : Price) (mws msr : Int)
    (hn : 0 < price.n) (hd : 0 < price.d) :
    adjustOffer price mws msr =
      min mws ⌊(msr : ℚ) / ((price.n : ℚ) / (price.d : ℚ))⌋ := by
  unfold adjustOffer
  have h1 : (msr : ℚ) / ((price.n : ℚ) / (price.d : ℚ)) =
      ((msr * price.d : Int) : ℚ) / ((price.n : Int) : ℚ) := by
    push_cast
    rw [div_div_eq_mul_div]
  rw [h1, floor_intCast_div_intCast _ _ hn]

/-- Claim C6 witness at `price = 3/2`, `maxWheatSend = 10`,
`maxSheepReceive = 7`. -/
theorem adjustOffer_eq_min_floor_witness :
    (0 : Int) < (Price.mk 3 2).n ∧ (0 : Int) < (Price.mk 3 2).d ∧
      adjustOffer (Price.mk 3 2) 10 7 =
        min 10 ⌊((7 : Int) : ℚ) /
          (((Price.mk 3 2).n : ℚ) / ((Price.mk 3 2).d : ℚ))⌋ :=
  ⟨by decide, by decide,
    adjustOffer_eq_min_floor (Price.mk 3 2) 10 7 (by decide) (by decide)⟩

/-- Claim C7: `adjustOffer` is idempotent: applying it to its own output
with the same price and unchanged counterpart cap is a fixed point. -/
theorem adjustOffer_idempotent (price : Price) (mws msr : Int) :
    adjustOffer price (adjustOffer price mws msr) msr =
      adjustOffer price mws msr := by
  unfold adjustOffer
  rw [min_assoc, min_self]

/-- Claim C8: if the caller-supplied filter returns `eStop` on the first
candidate offer (and the request caps are not yet exhausted),
`convertWithOffers` returns `eFilterStop` having crossed zero offers,
appended zero entries to the trade trail, and left the ledger state
(including the current offer) unchanged. -/
theorem convertWithOffers_filter_stop (o : OfferEntry)
    (rest : List OfferEntry) (mss mwr : Int) (ipp : Bool)
    (filter : OfferEntry → OfferFilterResult)
    (hf : filter o = OfferFilterResult.eStop) (hmss : 0 < mss)
    (hmwr : 0 < mwr) :
    convertWithOffers (o :: rest) mss mwr ipp filter =
      { result := ConvertResult.eFilterStop, sheepSend := 0,
        wheatReceived := 0, offerTrail := [], ledger := o :: rest } := by
  simp only [convertWithOffers]
  rw [if_neg (by omega : ¬(mss ≤ 0 ∨ mwr ≤ 0)), hf]

/-- Claim C8 witness: the all-stopping filter on a concrete one-offer
ledger. -/
theorem convertWithOffers_filter_stop_witness :
    stopAll (OfferEntry.mk 1 10 10 5 (Price.mk 1 1)) =
        OfferFilterResult.eStop ∧
      (0 : Int) < 2 ∧ (0 : Int) < 4 ∧
      convertWithOffers [OfferEntry.mk 1 10 10 5 (Price.mk 1 1)] 2 4 false
          stopAll =
        { result := ConvertResult.eFilterStop, sheepSend := 0,
          wheatReceived := 0, offerTrail := [],
          ledger := [OfferEntry.mk 1 10 10 5 (Price.mk 1 1)] } :=
  ⟨by decide, by decide, by decide,
    convertWithOffers_filter_stop (OfferEntry.mk 1 10 10 5 (Price.mk 1 1))
      [] 2 4 false stopAll (by decide) (by decide) (by decide)⟩

/-- Claim C10 witness at the concrete input `(1, 1, reduced = true)`. -/
theorem type_nonzero_nonzero_normal_witness :
    (ExchangeResult.mk 1 1 true).numWheatReceived ≠ 0 ∧
      (ExchangeResult.mk 1 1 true).numSheepSend ≠ 0 ∧
      (ExchangeResult.mk 1 1 true).type = ExchangeResultType.NORMAL :=
  ⟨by decide, by decide,
    type_nonzero_nonzero_normal (ExchangeResult.mk 1 1 true) (by decide)
      (by decide)⟩

end OfferExchange
